import Mathlib

/-!
Verification of the in-memory airport catalog and query engine
(`src/airports/data.go` of apimgr/airports).

The Go code is shallowly embedded as follows.

* A Go `map` is embedded as an association list; the list order makes the
  (otherwise unspecified and randomized) Go map iteration order explicit, so
  that properties quantifying over "the same loaded catalog" can quantify
  over all enumeration orders of the same key/value set.
* `map[k] = v` is `mapInsert` (overwrite in place, append new keys at the
  end), `m[k]` is `mapGet`, and `append`-style bucket updates are
  `appendBucket`.
* Go `int` is embedded as `ℤ`; a Go runtime panic (negative `make` size,
  out-of-range slice bounds) is embedded as `Option.none`.
* Go float64 coordinates and distances are embedded as `ℚ`; the
  transcendental `haversine` kernel (math.Sin/Cos/Atan2/Sqrt on float64)
  cannot be embedded exactly, so every operation that consumes it is
  parameterized by the distance function `hav`; the proved properties hold
  for every such function, hence in particular for the compiled haversine.
* `sort.Slice(x, less)` is embedded as insertion sort `sortBy` with the
  total comparator `le a b := !(less b a)`: a deterministic representative
  of the sorts admitted by `sort.Slice`'s contract (a permutation that is
  sorted with respect to `less`).
* `strings.ToUpper/ToLower/TrimSpace/Contains` are embedded character-wise
  (`strToUpper`, `strToLower`, `strTrim`, `strContainsSub`); airport codes
  and the claims only exercise the ASCII behavior, which agrees with Go.
-/

/-- One airport record, translated field for field from the Go struct
`Airport` (data.go lines 17-28). -/
structure Airport where
  ICAO : String
  IATA : String
  Name : String
  City : String
  State : String
  Country : String
  Elevation : Int
  Lat : ℚ
  Lon : ℚ
  Tz : String
deriving DecidableEq, Inhabited

/-- `AirportWithDistance` (data.go lines 31-35): an airport plus the
distance from the query point and its unit label. -/
structure AirportWithDistance extends Airport where
  Distance : ℚ
  DistanceUnit : String
deriving DecidableEq

/-- The `AirportDatabase` map, as an association list from primary (ICAO)
key to record; the list order is the map's enumeration order. -/
abbrev Catalog := List (String × Airport)

/-! ### Association-list embedding of Go maps -/

/-- `m[k]` on a Go map: first binding wins (keys are unique by
construction of `mapInsert`/`appendBucket`). -/
def mapGet (m : List (String × β)) (k : String) : Option β :=
  match m with
  | [] => none
  | p :: t => if p.1 = k then some p.2 else mapGet t k

/-- `m[k] = v` on a Go map: overwrite the existing binding in place, or
append a new binding at the end. -/
def mapInsert (m : List (String × β)) (k : String) (v : β) : List (String × β) :=
  match m with
  | [] => [(k, v)]
  | p :: t => if p.1 = k then (k, v) :: t else p :: mapInsert t k v

/-- `m[k] = append(m[k], v)` on a Go map of slices. -/
def appendBucket (m : List (String × List β)) (k : String) (v : β) :
    List (String × List β) :=
  match m with
  | [] => [(k, [v])]
  | p :: t => if p.1 = k then (p.1, p.2 ++ [v]) :: t else p :: appendBucket t k v

/-! ### Character-wise embedding of the used `strings` functions -/

/-- ASCII-case mapping of Go `strings.ToUpper` (the claims only exercise
ASCII code points, where Go and this definition agree). -/
def strToUpper (s : String) : String := String.mk (s.data.map Char.toUpper)

/-- ASCII-case mapping of Go `strings.ToLower`. -/
def strToLower (s : String) : String := String.mk (s.data.map Char.toLower)

/-- Whitespace test used by `strTrim` (ASCII subset of Go `unicode.IsSpace`). -/
def isSpaceChar (c : Char) : Bool :=
  c = ' ' || c = '\t' || c = '\n' || c = '\x0b' || c = '\x0c' || c = '\r'

/-- Go `strings.TrimSpace`: drop leading and trailing whitespace. -/
def strTrim (s : String) : String :=
  String.mk (((s.data.dropWhile isSpaceChar).reverse.dropWhile isSpaceChar).reverse)

/-- Go `strings.Contains sub s` on character lists: `sub` occurs as a
contiguous block (the empty needle always matches). -/
def listContainsSub (sub : List Char) : List Char → Bool
  | [] => sub.isEmpty
  | c :: t => sub.isPrefixOf (c :: t) || listContainsSub sub t

/-- Go `strings.Contains s sub`. -/
def strContainsSub (s sub : String) : Bool := listContainsSub sub.data s.data

/-! ### String comparison (Go's byte-wise `<` on strings, here char-wise) -/

/-- Lexicographic strict comparison of character lists (Go string `<`). -/
def charListLt : List Char → List Char → Bool
  | [], [] => false
  | [], _ :: _ => true
  | _ :: _, [] => false
  | a :: s, b :: t => if a < b then true else if b < a then false else charListLt s t

/-- Go string `<`. -/
def strLt (a b : String) : Bool := charListLt a.data b.data

/-- The total comparator `!(b < a)` induced by Go string `<`. -/
def strLe (a b : String) : Bool := !(strLt b a)

/-! ### `sort.Slice` embedding: insertion sort with a Bool comparator -/

/-- Insert `a` into `l` before the first element `b` with `le a b`. -/
def insertBy (le : α → α → Bool) (a : α) : List α → List α
  | [] => [a]
  | b :: t => if le a b then a :: b :: t else b :: insertBy le a t

/-- Insertion sort: the deterministic model of `sort.Slice x less` with
`le a b = !(less b a)`. -/
def sortBy (le : α → α → Bool) : List α → List α
  | [] => []
  | a :: t => insertBy le a (sortBy le t)

/-! ### Go slicing and the shared pagination code -/

/-- The largest value of Go's 64-bit `int`, `2^63 - 1`. -/
def maxGoInt : ℤ := 9223372036854775807

/-- Go 64-bit `int` addition: the exact sum wrapped two's-complement into
`[-2^63, 2^63)` (the Go spec makes signed overflow wrap), written with the
decimal constants `2^63` and `2^64`. -/
def goAdd (a b : ℤ) : ℤ :=
  (a + b + 9223372036854775808) % 18446744073709551616 - 9223372036854775808

/-- Go `l[lo:hi]`: the slice when `0 ≤ lo ≤ hi ≤ len(l)`, a runtime panic
(`none`) otherwise. -/
def goSlice (l : List α) (lo hi : ℤ) : Option (List α) :=
  if 0 ≤ lo ∧ lo ≤ hi ∧ hi ≤ (l.length : ℤ) then
    some ((l.drop lo.toNat).take (hi - lo).toNat)
  else none

/-- The pagination tail shared verbatim by `Search` (data.go 195-204) and
`GetAll` (data.go 349-358): empty page when `offset >= len`, otherwise the
slice from `offset` to `min(offset+limit, len)`; the sum
`end := offset + limit` is Go `int` addition and wraps on overflow. -/
def paginate (l : List α) (limit offset : ℤ) : Option (List α) :=
  if (l.length : ℤ) ≤ offset then some []
  else
    let e : ℤ := goAdd offset limit
    let e : ℤ := if (l.length : ℤ) < e then (l.length : ℤ) else e
    goSlice l offset e

/-! ### Index construction (`BuildIndexes`, data.go 81-124) -/

/-- The secondary lookup structures of `AirportIndexes` (data.go 41-48);
the `sync.RWMutex` guards pure reads and has no semantic content here. -/
structure AirportIndexes where
  ByICAO : List (String × Airport)
  ByIATA : List (String × List Airport)
  ByCity : List (String × List Airport)
  ByCountry : List (String × List Airport)
  ByState : List (String × List Airport)

/-- `BuildIndexes` (data.go 81-124): one pass over the catalog; the five
independent index updates of the single Go loop are rendered as five folds
over the same enumeration. -/
def BuildIndexes (catalog : Catalog) : AirportIndexes where
  ByICAO := catalog.foldl (fun m p => mapInsert m (strToUpper p.1) p.2) []
  ByIATA := catalog.foldl
    (fun m p => if p.2.IATA = "" then m else appendBucket m (strToUpper p.2.IATA) p.2) []
  ByCity := catalog.foldl
    (fun m p => if p.2.City = "" then m else appendBucket m (strToLower p.2.City) p.2) []
  ByCountry := catalog.foldl
    (fun m p => if p.2.Country = "" then m else appendBucket m (strToUpper p.2.Country) p.2) []
  ByState := catalog.foldl
    (fun m p => if p.2.State = "" then m else appendBucket m (strToLower p.2.State) p.2) []

/-! ### Query operations -/

/-- `GetByCode` (data.go 126-144): upper-case the code, try the ICAO index,
then the first element of the IATA bucket, else the not-found error. -/
def GetByCode (catalog : Catalog) (code : String) : Except String Airport :=
  let idx := BuildIndexes catalog
  let c := strToUpper code
  match mapGet idx.ByICAO c with
  | some apt => .ok apt
  | none =>
    match mapGet idx.ByIATA c with
    | some (apt :: _) => .ok apt
    | some [] => .error ("airport not found: " ++ c)
    | none => .error ("airport not found: " ++ c)

/-- The result-map accumulation of `Search` (data.go 156-182), taking the
already trimmed and lower-cased query: the `ByICAO` hit and the `ByIATA`
bucket are inserted first, then the scan over the collection inserts every
not-yet-present record whose lower-cased name or city contains the query;
the Go `results` map is the association list, keyed by the record's
`ICAO` field. -/
def searchResults (catalog : Catalog) (q : String) : List (String × Airport) :=
  let idx := BuildIndexes catalog
  let qU := strToUpper q
  let r0 : List (String × Airport) :=
    match mapGet idx.ByICAO qU with
    | some apt => mapInsert [] apt.ICAO apt
    | none => []
  let r1 : List (String × Airport) :=
    match mapGet idx.ByIATA qU with
    | some apts => apts.foldl (fun m apt => mapInsert m apt.ICAO apt) r0
    | none => r0
  catalog.foldl
    (fun m p =>
      if (mapGet m p.2.ICAO).isSome then m
      else if strContainsSub (strToLower p.2.Name) q ||
              strContainsSub (strToLower p.2.City) q then
        mapInsert m p.2.ICAO p.2
      else m) r1

/-- `Search` (data.go 146-205): empty for a blank query, otherwise the
accumulated result map (`searchResults`), sorted by name and paginated. -/
def Search (catalog : Catalog) (query : String) (limit offset : ℤ) :
    Option (List Airport) :=
  let q := strToLower (strTrim query)
  if q = "" then some []
  else
    let airports := (searchResults catalog q).map (fun p => p.2)
    let sorted := sortBy (fun x y => strLe x.Name y.Name) airports
    paginate sorted limit offset

/-- The per-record distance computation and radius filter shared by
`GetNearby` (data.go 246-252) and `GetNearbyWithDistance` (data.go
284-289); `hav` stands for the float64 `haversine` (data.go 425-442),
which cannot be embedded exactly (transcendental float math), so it is an
explicit parameter. -/
def nearbyFiltered (hav : ℚ → ℚ → ℚ → ℚ → ℚ) (lat lon radiusKm : ℚ)
    (catalog : Catalog) : List (Airport × ℚ) :=
  (catalog.map (fun p => (p.2, hav lat lon p.2.Lat p.2.Lon))).filter
    (fun r => decide (r.2 ≤ radiusKm))

/-- The `if limit > len(results) { limit = len(results) }` clamp shared by
`GetNearby` (data.go 260-262) and `GetNearbyWithDistance` (data.go 297-299). -/
def clampLimit (limit : ℤ) (n : Nat) : ℤ :=
  if (n : ℤ) < limit then (n : ℤ) else limit

/-- `GetNearby` (data.go 234-270): filter to distance ≤ radius, sort
ascending by distance, truncate to the clamped `limit` (a negative
effective limit is the Go panic of `make([]*Airport, limit)`). -/
def GetNearby (hav : ℚ → ℚ → ℚ → ℚ → ℚ) (lat lon radiusKm : ℚ) (limit : ℤ)
    (catalog : Catalog) : Option (List Airport) :=
  let results := nearbyFiltered hav lat lon radiusKm catalog
  let sorted := sortBy (fun x y => decide (x.2 ≤ y.2)) results
  let lim : ℤ := clampLimit limit results.length
  if lim < 0 then none else some ((sorted.take lim.toNat).map (fun r => r.1))

/-- Unit conversion constants (data.go 411-417). -/
def KmToMiles : ℚ := 0.621371

/-- Unit system constant (data.go 420-423). -/
def UnitMetric : String := "metric"

/-- Unit system constant (data.go 420-423). -/
def UnitImperial : String := "imperial"

/-- `ConvertDistance` (data.go 444-451): kilometers for `"metric"`, miles
(× 0.621371) for everything else. -/
def ConvertDistance (distanceKm : ℚ) (units : String) : ℚ × String :=
  if units = UnitMetric then (distanceKm, "km")
  else (distanceKm * KmToMiles, "mi")

/-- `GetNearbyWithDistance` (data.go 272-313): the same filter/sort/limit
pipeline as `GetNearby`, then each retained distance converted for display. -/
def GetNearbyWithDistance (hav : ℚ → ℚ → ℚ → ℚ → ℚ) (lat lon radiusKm : ℚ)
    (limit : ℤ) (units : String) (catalog : Catalog) :
    Option (List AirportWithDistance) :=
  let results := nearbyFiltered hav lat lon radiusKm catalog
  let sorted := sortBy (fun x y => decide (x.2 ≤ y.2)) results
  let lim : ℤ := clampLimit limit results.length
  if lim < 0 then none
  else some ((sorted.take lim.toNat).map (fun r =>
    { toAirport := r.1
      Distance := (ConvertDistance r.2 units).1
      DistanceUnit := (ConvertDistance r.2 units).2 }))

/-- `GetInBoundingBox` (data.go 315-331): keep every record whose latitude
and longitude fall inside the inclusive bounds, in enumeration order. -/
def GetInBoundingBox (catalog : Catalog) (minLat maxLat minLon maxLon : ℚ) :
    List Airport :=
  (catalog.map (fun p => p.2)).filter
    (fun apt => decide (apt.Lat ≥ minLat) && decide (apt.Lat ≤ maxLat) &&
                decide (apt.Lon ≥ minLon) && decide (apt.Lon ≤ maxLon))

/-- `GetAll` (data.go 333-359): every record sorted by ICAO, then the
shared pagination. -/
def GetAll (catalog : Catalog) (limit offset : ℤ) : Option (List Airport) :=
  let airports := catalog.map (fun p => p.2)
  let sorted := sortBy (fun x y => strLe x.ICAO y.ICAO) airports
  paginate sorted limit offset

/-- The four aggregates returned by `Stats` (data.go 393-404), as a record
in place of the Go `map[string]interface{}`. -/
structure StatsResult where
  total_airports : Nat
  countries : Nat
  cities : Nat
  with_iata : Nat
deriving DecidableEq

/-- `Stats` (data.go 393-404): sizes of the catalog and of the country,
city and IATA indexes. -/
def Stats (catalog : Catalog) : StatsResult :=
  let idx := BuildIndexes catalog
  { total_airports := catalog.length
    countries := idx.ByCountry.length
    cities := idx.ByCity.length
    with_iata := idx.ByIATA.length }

/-! ### Spec-side counting and concrete records -/

/-- Spec-side definition (for the Stats refinement comparison): the number
of distinct strings in a list. -/
def distinctCount (l : List String) : Nat := l.dedup.length

/-- The common shape of the three bucket-index build steps of
`BuildIndexes`, abstracted over the guarded key extraction. -/
def bucketStep (keyOf : String × Airport → Option String)
    (m : List (String × List Airport)) (p : String × Airport) :
    List (String × List Airport) :=
  match keyOf p with
  | none => m
  | some k => appendBucket m k p.2

/-- Invariant of the Go `results` map in `Search`: keys are pairwise
distinct, and every record is stored under its own `ICAO` field. -/
def ResultsInv (m : List (String × Airport)) : Prop :=
  (m.map Prod.fst).Nodup ∧ ∀ p ∈ m, p.2.ICAO = p.1

/-- A concrete record used to instantiate proved theorems. -/
def jfk : Airport :=
  { ICAO := "KJFK", IATA := "JFK", Name := "John F Kennedy International"
    City := "New York", State := "NY", Country := "US", Elevation := 13
    Lat := 40, Lon := -73, Tz := "America/New_York" }

/-- A second concrete record used to instantiate proved theorems. -/
def lax : Airport :=
  { ICAO := "KLAX", IATA := "LAX", Name := "Los Angeles International"
    City := "Los Angeles", State := "CA", Country := "US", Elevation := 125
    Lat := 33, Lon := -118, Tz := "America/Los_Angeles" }

/-- A record sharing its display name with `nameTieB` (used to exhibit the
enumeration-order dependence of equal-name ties). -/
def nameTieA : Airport :=
  { ICAO := "AAAA", IATA := "", Name := "Same Name", City := "Xville"
    State := "", Country := "US", Elevation := 0, Lat := 1, Lon := 1, Tz := "" }

/-- A record sharing its display name with `nameTieA`. -/
def nameTieB : Airport :=
  { ICAO := "BBBB", IATA := "", Name := "Same Name", City := "Yville"
    State := "", Country := "US", Elevation := 0, Lat := 2, Lon := 2, Tz := "" }

/-- A record sharing its alternate code with `iataShareB` (used to exhibit
the distinct-codes semantics of the `with_iata` statistic). -/
def iataShareA : Airport :=
  { ICAO := "AAAA", IATA := "SHR", Name := "Alpha", City := "CityA"
    State := "", Country := "US", Elevation := 0, Lat := 0, Lon := 0, Tz := "" }

/-- A record sharing its alternate code with `iataShareA`. -/
def iataShareB : Airport :=
  { ICAO := "BBBB", IATA := "SHR", Name := "Beta", City := "CityB"
    State := "", Country := "US", Elevation := 0, Lat := 0, Lon := 0, Tz := "" }

/-! ## Infrastructure lemmas -/

/-! ### Association-list lemmas -/

theorem mapGet_mapInsert (m : List (String × β)) (k K : String) (v : β) :
    mapGet (mapInsert m k v) K = if k = K then some v else mapGet m K := by
  induction m with
  | nil => by_cases h : k = K <;> simp [mapInsert, mapGet, h]
  | cons p t ih =>
    by_cases hp : p.1 = k
    · by_cases h : k = K
      · simp [mapInsert, mapGet, hp, h]
      · have hpK : ¬ p.1 = K := fun e => h (hp.symm.trans e)
        simp [mapInsert, mapGet, hp, h, hpK]
    · by_cases hK : p.1 = K
      · have h : ¬ k = K := fun e => hp (hK.trans e.symm)
        have hKk : ¬ K = k := fun e => hp (hK.trans e)
        simp [mapInsert, mapGet, hp, hK, h, hKk]
      · simp [mapInsert, mapGet, hp, hK, ih]

theorem mem_mapInsert (m : List (String × β)) (k : String) (v : β) (p : String × β) :
    p ∈ mapInsert m k v → p = (k, v) ∨ p ∈ m := by
  induction m with
  | nil => simp [mapInsert]
  | cons q t ih =>
    by_cases hq : q.1 = k <;> simp only [mapInsert, hq, if_true, if_false] <;>
      intro h <;> rcases List.mem_cons.mp h with h | h
    · left; exact h
    · right; exact List.mem_cons_of_mem _ h
    · right; exact h ▸ List.mem_cons_self _ _
    · rcases ih h with h | h
      · left; exact h
      · right; exact List.mem_cons_of_mem _ h

theorem keys_mapInsert (m : List (String × β)) (k : String) (v : β) :
    (mapInsert m k v).map Prod.fst =
      if k ∈ m.map Prod.fst then m.map Prod.fst else m.map Prod.fst ++ [k] := by
  induction m with
  | nil => simp [mapInsert]
  | cons q t ih =>
    by_cases hq : q.1 = k
    · simp [mapInsert, hq]
    · by_cases hk : k ∈ t.map Prod.fst <;>
        simp [mapInsert, hq, hk, ih, Ne.symm hq]

theorem nodupKeys_mapInsert (m : List (String × β)) (k : String) (v : β)
    (h : (m.map Prod.fst).Nodup) : ((mapInsert m k v).map Prod.fst).Nodup := by
  rw [keys_mapInsert]
  by_cases hk : k ∈ m.map Prod.fst
  · rw [if_pos hk]; exact h
  · rw [if_neg hk]
    refine List.nodup_append.mpr ⟨h, List.nodup_singleton k, ?_⟩
    intro a ha hb
    rw [List.mem_singleton] at hb
    exact hk (hb ▸ ha)

theorem mapGet_mem (m : List (String × β)) (k : String) (v : β) :
    mapGet m k = some v → (k, v) ∈ m := by
  induction m with
  | nil => simp [mapGet]
  | cons p t ih =>
    by_cases hp : p.1 = k
    · simp only [mapGet, hp, if_true, Option.some.injEq]
      intro h
      have hpkv : p = (k, v) := by cases p; simp_all
      rw [← hpkv]
      exact List.mem_cons_self _ _
    · simp only [mapGet, hp, if_false]
      intro h; exact List.mem_cons_of_mem _ (ih h)

theorem mapGet_isSome_mapInsert (m : List (String × β)) (k K : String) (v : β)
    (h : (mapGet m K).isSome) : (mapGet (mapInsert m k v) K).isSome := by
  rw [mapGet_mapInsert]
  by_cases e : k = K <;> simp [e, h]

/-! ### appendBucket lemmas -/

theorem keys_appendBucket (m : List (String × List β)) (k : String) (v : β) :
    (appendBucket m k v).map Prod.fst =
      if k ∈ m.map Prod.fst then m.map Prod.fst else m.map Prod.fst ++ [k] := by
  induction m with
  | nil => simp [appendBucket]
  | cons q t ih =>
    by_cases hq : q.1 = k
    · simp [appendBucket, hq]
    · by_cases hk : k ∈ t.map Prod.fst <;>
        simp [appendBucket, hq, hk, ih, Ne.symm hq]

theorem buckets_ne_nil_appendBucket (k : String) (v : β) :
    ∀ (m : List (String × List β)), (∀ p ∈ m, p.2 ≠ []) →
      ∀ p ∈ appendBucket m k v, p.2 ≠ [] := by
  intro m
  induction m with
  | nil =>
    intro _ p hp
    simp only [appendBucket, List.mem_singleton] at hp
    subst hp; simp
  | cons q t ih =>
    intro h p hp
    by_cases hq : q.1 = k
    · simp only [appendBucket, if_pos hq] at hp
      rcases List.mem_cons.mp hp with e | e
      · subst e; simp
      · exact h p (List.mem_cons_of_mem _ e)
    · simp only [appendBucket, if_neg hq] at hp
      rcases List.mem_cons.mp hp with e | e
      · rw [e]; exact h q (List.mem_cons_self _ _)
      · exact ih (fun r hr => h r (List.mem_cons_of_mem _ hr)) p e

/-! ### foldl invariant preservation -/

theorem foldl_inv (P : α → Prop) (step : α → β → α)
    (hstep : ∀ m p, P m → P (step m p)) :
    ∀ (l : List β) (m : α), P m → P (l.foldl step m) := by
  intro l
  induction l with
  | nil => intro m h; exact h
  | cons p t ih => intro m h; exact ih _ (hstep m p h)

/-! ### sortBy lemmas -/

theorem perm_insertBy (le : α → α → Bool) (a : α) (l : List α) :
    (insertBy le a l).Perm (a :: l) := by
  induction l with
  | nil => simp [insertBy]
  | cons b t ih =>
    by_cases h : le a b
    · simp [insertBy, h]
    · simp only [insertBy, h, if_false]
      exact (ih.cons b).trans (List.Perm.swap a b t)

theorem perm_sortBy (le : α → α → Bool) (l : List α) : (sortBy le l).Perm l := by
  induction l with
  | nil => simp [sortBy]
  | cons a t ih => exact (perm_insertBy le a (sortBy le t)).trans (ih.cons a)

theorem mem_insertBy (le : α → α → Bool) (a : α) (l : List α) (x : α) :
    x ∈ insertBy le a l → x = a ∨ x ∈ l := by
  intro h
  exact List.mem_cons.mp ((perm_insertBy le a l).mem_iff.mp h)

theorem pairwise_insertBy (le : α → α → Bool)
    (htot : ∀ a b, le a b = true ∨ le b a = true)
    (htrans : ∀ a b c, le a b = true → le b c = true → le a c = true)
    (a : α) (l : List α)
    (h : l.Pairwise (fun x y => le x y = true)) :
    (insertBy le a l).Pairwise (fun x y => le x y = true) := by
  induction l with
  | nil => simp [insertBy]
  | cons b t ih =>
    rcases List.pairwise_cons.mp h with ⟨hb, ht⟩
    by_cases hab : le a b = true
    · simp only [insertBy, hab, if_true]
      refine List.pairwise_cons.mpr ⟨?_, h⟩
      intro x hx
      rcases List.mem_cons.mp hx with e | e
      · exact e ▸ hab
      · exact htrans a b x hab (hb x e)
    · have hab' : le a b = false := by
        rw [Bool.not_eq_true] at hab; exact hab
      simp only [insertBy, hab', Bool.false_eq_true, if_false]
      refine List.pairwise_cons.mpr ⟨?_, ih ht⟩
      intro x hx
      rcases mem_insertBy le a t x hx with e | e
      · rw [e]
        rcases htot a b with h' | h'
        · exact absurd h' hab
        · exact h'
      · exact hb x e

theorem pairwise_sortBy (le : α → α → Bool)
    (htot : ∀ a b, le a b = true ∨ le b a = true)
    (htrans : ∀ a b c, le a b = true → le b c = true → le a c = true)
    (l : List α) :
    (sortBy le l).Pairwise (fun x y => le x y = true) := by
  induction l with
  | nil => simp [sortBy]
  | cons a t ih => exact pairwise_insertBy le htot htrans a (sortBy le t) ih

/-! ### Order facts for the Go string comparator -/

theorem charListLt_asymm : ∀ s t : List Char,
    charListLt s t = true → charListLt t s = false := by
  intro s
  induction s with
  | nil =>
    intro t h
    cases t with
    | nil => simp [charListLt] at h
    | cons b t => simp [charListLt]
  | cons a s ih =>
    intro t h
    cases t with
    | nil => simp [charListLt] at h
    | cons b t =>
      simp only [charListLt] at h ⊢
      by_cases hab : a < b
      · rw [if_neg (lt_asymm hab), if_pos hab]
      · rw [if_neg hab] at h
        by_cases hba : b < a
        · rw [if_pos hba] at h
          exact absurd h (by simp)
        · rw [if_neg hba] at h
          rw [if_neg hba, if_neg hab]
          exact ih t h

theorem charListLt_connex : ∀ s t : List Char,
    charListLt s t = false → charListLt t s = false → s = t := by
  intro s
  induction s with
  | nil =>
    intro t h1 _
    cases t with
    | nil => rfl
    | cons b t => simp [charListLt] at h1
  | cons a s ih =>
    intro t h1 h2
    cases t with
    | nil => simp [charListLt] at h2
    | cons b t =>
      simp only [charListLt] at h1 h2
      by_cases hab : a < b
      · rw [if_pos hab] at h1; exact absurd h1 (by simp)
      · by_cases hba : b < a
        · rw [if_pos hba] at h2; exact absurd h2 (by simp)
        · rw [if_neg hab, if_neg hba] at h1
          have hae : a = b := le_antisymm (not_lt.mp hba) (not_lt.mp hab)
          rw [if_neg hba, if_neg hab] at h2
          rw [hae, ih t h1 h2]

theorem charListLt_trans : ∀ s t u : List Char,
    charListLt s t = true → charListLt t u = true → charListLt s u = true := by
  intro s
  induction s with
  | nil =>
    intro t u h1 h2
    cases t with
    | nil => simp [charListLt] at h1
    | cons b t =>
      cases u with
      | nil => simp [charListLt] at h2
      | cons c u => simp [charListLt]
  | cons a s ih =>
    intro t u h1 h2
    cases t with
    | nil => simp [charListLt] at h1
    | cons b t =>
      cases u with
      | nil => simp [charListLt] at h2
      | cons c u =>
        simp only [charListLt] at h1 h2 ⊢
        by_cases hab : a < b
        · by_cases hbc : b < c
          · rw [if_pos (lt_trans hab hbc)]
          · by_cases hcb : c < b
            · rw [if_neg hbc, if_pos hcb] at h2
              exact absurd h2 (by simp)
            · have hbe : b = c := le_antisymm (not_lt.mp hcb) (not_lt.mp hbc)
              rw [if_pos (hbe ▸ hab)]
        · by_cases hba : b < a
          · rw [if_neg hab, if_pos hba] at h1
            exact absurd h1 (by simp)
          · have hae : a = b := le_antisymm (not_lt.mp hba) (not_lt.mp hab)
            rw [if_neg hab, if_neg hba] at h1
            by_cases hbc : b < c
            · rw [if_pos (hae ▸ hbc)]
            · by_cases hcb : c < b
              · rw [if_neg hbc, if_pos hcb] at h2
                exact absurd h2 (by simp)
              · have hbe : b = c := le_antisymm (not_lt.mp hcb) (not_lt.mp hbc)
                rw [if_neg hbc, if_neg hcb] at h2
                have hac : ¬ a < c := hbe ▸ hae ▸ lt_irrefl a
                have hca : ¬ c < a := hbe ▸ hae ▸ lt_irrefl a
                rw [if_neg hac, if_neg hca]
                exact ih t u h1 h2

theorem strLe_total (a b : String) : strLe a b = true ∨ strLe b a = true := by
  by_cases h : strLt b a = true
  · right
    have := charListLt_asymm _ _ h
    simp [strLe, strLt, this]
  · left
    rw [Bool.not_eq_true] at h
    simp [strLe, h]

theorem strLe_trans (a b c : String) :
    strLe a b = true → strLe b c = true → strLe a c = true := by
  intro h1 h2
  rw [strLe, Bool.not_eq_true'] at h1 h2 ⊢
  simp only [strLt] at h1 h2 ⊢
  by_cases h : charListLt c.data a.data = true
  · by_cases hbc : charListLt b.data c.data = true
    · have hba := charListLt_trans _ _ _ hbc h
      rw [hba] at h1
      exact absurd h1 (by simp)
    · rw [Bool.not_eq_true] at hbc
      have hbe : b.data = c.data := charListLt_connex _ _ hbc h2
      rw [← hbe] at h
      rw [h1] at h
      exact absurd h (by simp)
  · rw [Bool.not_eq_true] at h
    exact h

/-! ### The rational comparator used for distances -/

theorem qpair_le_total (r s : α × ℚ) :
    decide (r.2 ≤ s.2) = true ∨ decide (s.2 ≤ r.2) = true := by
  rcases le_total r.2 s.2 with h | h <;> simp [h]

theorem qpair_le_trans (r s t : α × ℚ) :
    decide (r.2 ≤ s.2) = true → decide (s.2 ≤ t.2) = true →
      decide (r.2 ≤ t.2) = true := by
  intro h1 h2
  rw [decide_eq_true_eq] at h1 h2 ⊢
  exact le_trans h1 h2

/-! ### Pagination lemmas -/

theorem paginate_sublist (l : List α) (limit offset : ℤ) (r : List α)
    (h : paginate l limit offset = some r) : r.Sublist l := by
  simp only [paginate, goSlice] at h
  split at h
  · obtain rfl := Option.some.inj h
    exact List.nil_sublist l
  · split at h <;> split at h <;> cases h <;>
      exact (List.take_sublist _ _).trans (List.drop_sublist _ _)

/-- Go `int` addition agrees with the exact sum when the sum of two
non-negative operands stays within the `int` range. -/
theorem goAdd_eq_add (a b : ℤ) (ha : 0 ≤ a) (hb : 0 ≤ b)
    (h : a + b ≤ maxGoInt) : goAdd a b = a + b := by
  unfold goAdd
  unfold maxGoInt at h
  omega

theorem paginate_nonneg (l : List α) (limit offset : ℤ)
    (hl : 0 ≤ limit) (ho : 0 ≤ offset) (hno : offset + limit ≤ maxGoInt) :
    paginate l limit offset =
      some ((l.drop offset.toNat).take
        (min (offset + limit) (l.length : ℤ) - offset).toNat) := by
  simp only [paginate, goSlice]
  rw [goAdd_eq_add offset limit ho hl hno]
  by_cases h1 : (l.length : ℤ) ≤ offset
  · rw [if_pos h1]
    have hdrop : l.drop offset.toNat = [] := List.drop_eq_nil_of_le (by omega)
    rw [hdrop, List.take_nil]
  · rw [if_neg h1]
    by_cases h2 : (l.length : ℤ) < offset + limit
    · rw [if_pos h2, if_pos ⟨ho, by omega, by omega⟩]
      congr 2
      omega
    · rw [if_neg h2, if_pos ⟨ho, by omega, by omega⟩]
      congr 2
      omega

/-! ## Claims -/

/-- **C9.** `ConvertDistance(x, "metric")` returns `x` unchanged with label
`"km"` (metric is the identity, so applying it twice round-trips), and for
every other unit string — including unrecognized strings and the empty
string — it returns `x × 0.621371` with label `"mi"`. -/
theorem convertDistance_spec :
    (∀ x : ℚ, ConvertDistance x "metric" = (x, "km")) ∧
    (∀ x : ℚ, ConvertDistance (ConvertDistance x "metric").1 "metric" = (x, "km")) ∧
    (∀ (x : ℚ) (u : String), u ≠ "metric" →
      ConvertDistance x u = (x * KmToMiles, "mi")) := by
  refine ⟨fun x => ?_, fun x => ?_, fun x u hu => ?_⟩
  · simp [ConvertDistance, UnitMetric]
  · simp [ConvertDistance, UnitMetric]
  · simp [ConvertDistance, UnitMetric, hu]

/-- Witness for `convertDistance_spec`: the imperial default applied at the
empty string and at `"imperial"`. -/
theorem convertDistance_spec_witness :
    ConvertDistance 2 "" = (2 * KmToMiles, "mi") ∧
    ConvertDistance 2 "imperial" = (2 * KmToMiles, "mi") :=
  ⟨convertDistance_spec.2.2 2 "" (by decide),
   convertDistance_spec.2.2 2 "imperial" (by decide)⟩

/-- **C6.** A record appears in `GetInBoundingBox(minLat, maxLat, minLon,
maxLon)` iff its latitude lies in `[minLat, maxLat]` and its longitude in
`[minLon, maxLon]`, inclusive; consequently `minLat > maxLat` (or
`minLon > maxLon`) yields the empty result — accepted behavior, with no
`min ≤ max` validation. -/
theorem getInBoundingBox_spec :
    ∀ (catalog : Catalog) (minLat maxLat minLon maxLon : ℚ) (a : Airport),
      (a ∈ GetInBoundingBox catalog minLat maxLat minLon maxLon ↔
        a ∈ catalog.map (fun p => p.2) ∧
          minLat ≤ a.Lat ∧ a.Lat ≤ maxLat ∧ minLon ≤ a.Lon ∧ a.Lon ≤ maxLon) ∧
      (maxLat < minLat → GetInBoundingBox catalog minLat maxLat minLon maxLon = []) ∧
      (maxLon < minLon → GetInBoundingBox catalog minLat maxLat minLon maxLon = []) := by
  intro catalog minLat maxLat minLon maxLon a
  refine ⟨?_, ?_, ?_⟩
  · simp [GetInBoundingBox, List.mem_filter, decide_eq_true_eq, and_assoc, ge_iff_le]
  · intro hlt
    apply List.filter_eq_nil_iff.mpr
    intro b _
    simp only [Bool.and_eq_true, decide_eq_true_eq, ge_iff_le]
    rintro ⟨⟨⟨h1, h2⟩, _⟩, _⟩
    exact absurd (le_trans h1 h2) (not_le.mpr hlt)
  · intro hlt
    apply List.filter_eq_nil_iff.mpr
    intro b _
    simp only [Bool.and_eq_true, decide_eq_true_eq, ge_iff_le]
    rintro ⟨⟨_, h3⟩, h4⟩
    exact absurd (le_trans h3 h4) (not_le.mpr hlt)

/-- Witness for `getInBoundingBox_spec`: inverted latitude bounds give the
empty result on a concrete one-record catalog, and the membership test
holds there for ordinary bounds. -/
theorem getInBoundingBox_spec_witness :
    GetInBoundingBox [("KJFK", jfk)] 1 0 (-80) 0 = [] ∧
    (jfk ∈ GetInBoundingBox [("KJFK", jfk)] 0 50 (-80) 0 ↔
      jfk ∈ ([("KJFK", jfk)] : Catalog).map (fun p => p.2) ∧
        0 ≤ jfk.Lat ∧ jfk.Lat ≤ 50 ∧ -80 ≤ jfk.Lon ∧ jfk.Lon ≤ 0) :=
  ⟨(getInBoundingBox_spec [("KJFK", jfk)] 1 0 (-80) 0 jfk).2.1 (by decide),
   (getInBoundingBox_spec [("KJFK", jfk)] 0 50 (-80) 0 jfk).1⟩

/-! ### The Search result-map invariant -/

theorem resultsInv_mapInsert (m : List (String × Airport)) (a : Airport)
    (h : ResultsInv m) : ResultsInv (mapInsert m a.ICAO a) := by
  refine ⟨nodupKeys_mapInsert m a.ICAO a h.1, ?_⟩
  intro p hp
  rcases mem_mapInsert m a.ICAO a p hp with e | e
  · rw [e]
  · exact h.2 p e

theorem resultsInv_nil : ResultsInv [] := ⟨List.nodup_nil, by simp⟩

theorem searchResults_inv (catalog : Catalog) (q : String) :
    ResultsInv (searchResults catalog q) := by
  simp only [searchResults]
  refine foldl_inv ResultsInv _ ?_ catalog _ ?_
  · intro m p hm
    by_cases h1 : (mapGet m p.2.ICAO).isSome
    · rw [if_pos h1]; exact hm
    · rw [if_neg h1]
      by_cases h2 : strContainsSub (strToLower p.2.Name) q ||
          strContainsSub (strToLower p.2.City) q
      · rw [if_pos h2]; exact resultsInv_mapInsert m p.2 hm
      · rw [if_neg h2]; exact hm
  · cases h1 : mapGet (BuildIndexes catalog).ByIATA (strToUpper q) with
    | none =>
      cases h0 : mapGet (BuildIndexes catalog).ByICAO (strToUpper q) with
      | none => exact resultsInv_nil
      | some apt => exact resultsInv_mapInsert [] apt resultsInv_nil
    | some apts =>
      refine foldl_inv ResultsInv _ ?_ apts _ ?_
      · intro m apt hm; exact resultsInv_mapInsert m apt hm
      · cases h0 : mapGet (BuildIndexes catalog).ByICAO (strToUpper q) with
        | none => exact resultsInv_nil
        | some apt => exact resultsInv_mapInsert [] apt resultsInv_nil

/-- **C2.** For every query string, limit and offset, the list returned by
`Search` contains no two entries with the same primary code, even when a
record matches both by exact code and by substring. -/
theorem search_no_duplicate_codes :
    ∀ (catalog : Catalog) (q : String) (limit offset : ℤ) (l : List Airport),
      Search catalog q limit offset = some l → (l.map Airport.ICAO).Nodup := by
  intro catalog q limit offset l h
  simp only [Search] at h
  split at h
  · obtain rfl := Option.some.inj h
    simp
  · have hsub := paginate_sublist _ limit offset l h
    have hinv := searchResults_inv catalog (strToLower (strTrim q))
    have hperm := perm_sortBy (fun x y : Airport => strLe x.Name y.Name)
      ((searchResults catalog (strToLower (strTrim q))).map (fun p => p.2))
    have hkeys : ((searchResults catalog (strToLower (strTrim q))).map
        (fun p => p.2)).map Airport.ICAO =
        (searchResults catalog (strToLower (strTrim q))).map Prod.fst := by
      rw [List.map_map]
      exact List.map_congr_left (fun p hp => hinv.2 p hp)
    have h1 : (((searchResults catalog (strToLower (strTrim q))).map
        (fun p => p.2)).map Airport.ICAO).Nodup := by
      rw [hkeys]; exact hinv.1
    have h2 := (hperm.symm.map Airport.ICAO).nodup h1
    exact (hsub.map Airport.ICAO).nodup h2

/-- Witness for `search_no_duplicate_codes`: a concrete substring query on
a one-record catalog. -/
theorem search_no_duplicate_codes_witness :
    (([jfk] : List Airport).map Airport.ICAO).Nodup :=
  search_no_duplicate_codes [("KJFK", jfk)] "kennedy" 10 0 [jfk] (by decide)

/-! ### Index lookup characterization for GetByCode -/

theorem byICAO_def (catalog : Catalog) :
    (BuildIndexes catalog).ByICAO =
      catalog.foldl (fun m p => mapInsert m (strToUpper p.1) p.2) [] := rfl

theorem byIATA_def (catalog : Catalog) :
    (BuildIndexes catalog).ByIATA =
      catalog.foldl
        (fun m p => if p.2.IATA = "" then m
          else appendBucket m (strToUpper p.2.IATA) p.2) [] := rfl

/-- Any hit in the primary index comes from a catalog entry whose key
upper-cases to the looked-up key. -/
theorem byICAO_lookup_src (catalog : Catalog) (K : String) (r : Airport) :
    mapGet (BuildIndexes catalog).ByICAO K = some r →
      ∃ k, (k, r) ∈ catalog ∧ strToUpper k = K := by
  rw [byICAO_def]
  have gen : ∀ (c : Catalog) (m : List (String × Airport)),
      mapGet (c.foldl (fun m p => mapInsert m (strToUpper p.1) p.2) m) K = some r →
        (∃ k, (k, r) ∈ c ∧ strToUpper k = K) ∨ mapGet m K = some r := by
    intro c
    induction c with
    | nil => intro m h; right; exact h
    | cons p t ih =>
      intro m h
      rw [List.foldl_cons] at h
      rcases ih _ h with h1 | h1
      · left
        obtain ⟨k, hk1, hk2⟩ := h1
        exact ⟨k, List.mem_cons_of_mem _ hk1, hk2⟩
      · rw [mapGet_mapInsert] at h1
        by_cases e : strToUpper p.1 = K
        · rw [if_pos e] at h1
          left
          refine ⟨p.1, ?_, e⟩
          rw [← Option.some.inj h1, Prod.mk.eta]
          exact List.mem_cons_self _ _
        · rw [if_neg e] at h1
          right; exact h1
  intro h
  rcases gen catalog [] h with h1 | h1
  · exact h1
  · cases h1

/-- Every catalog entry is reachable through the primary index under its
upper-cased key. -/
theorem byICAO_lookup_total (catalog : Catalog) (k : String) (a : Airport)
    (hmem : (k, a) ∈ catalog) :
    (mapGet (BuildIndexes catalog).ByICAO (strToUpper k)).isSome := by
  rw [byICAO_def]
  have grow : ∀ (c : Catalog) (m : List (String × Airport)),
      (mapGet m (strToUpper k)).isSome →
        (mapGet (c.foldl (fun m p => mapInsert m (strToUpper p.1) p.2) m)
          (strToUpper k)).isSome :=
    fun c m h =>
      foldl_inv (fun m' => (mapGet m' (strToUpper k)).isSome) _
        (fun m' p h' => mapGet_isSome_mapInsert m' _ _ p.2 h') c m h
  have main : ∀ (c : Catalog) (m : List (String × Airport)), (k, a) ∈ c →
      (mapGet (c.foldl (fun m p => mapInsert m (strToUpper p.1) p.2) m)
        (strToUpper k)).isSome := by
    intro c
    induction c with
    | nil => intro m h; cases h
    | cons p t ih =>
      intro m hm
      rw [List.foldl_cons]
      rcases List.mem_cons.mp hm with e | e
      · have hp1 : p.1 = k := by rw [← e]
        have hbase : (mapGet (mapInsert m (strToUpper p.1) p.2)
            (strToUpper k)).isSome := by
          rw [mapGet_mapInsert, hp1, if_pos rfl]
          simp
        exact grow t _ hbase
      · exact ih _ e
  exact main catalog [] hmem

/-- Every bucket of the built alternate-code index is non-empty. -/
theorem byIATA_buckets_ne_nil (catalog : Catalog) :
    ∀ p ∈ (BuildIndexes catalog).ByIATA, p.2 ≠ [] := by
  rw [byIATA_def]
  refine foldl_inv
    (fun (m : List (String × List Airport)) => ∀ p ∈ m, p.2 ≠ []) _ ?_
    catalog [] (by simp)
  intro m p hm
  by_cases h : p.2.IATA = ""
  · rw [if_pos h]; exact hm
  · rw [if_neg h]; exact buckets_ne_nil_appendBucket _ _ m hm

/-- **C1.** `GetByCode` upper-cases the code; a primary-index hit is
returned as is (so every primary code of a well-keyed catalog resolves to
a record with that primary code up to case); on a primary miss the first
element of the alternate-code bucket is returned when that bucket exists;
and the `NotFoundError` occurs exactly when neither index has an entry for
the upper-cased code. -/
theorem getByCode_spec :
    ∀ (catalog : Catalog) (code : String),
      (∀ r, mapGet (BuildIndexes catalog).ByICAO (strToUpper code) = some r →
        GetByCode catalog code = .ok r) ∧
      (mapGet (BuildIndexes catalog).ByICAO (strToUpper code) = none →
        ∀ b bs, mapGet (BuildIndexes catalog).ByIATA (strToUpper code) = some (b :: bs) →
          GetByCode catalog code = .ok b) ∧
      ((∃ e, GetByCode catalog code = .error e) ↔
        mapGet (BuildIndexes catalog).ByICAO (strToUpper code) = none ∧
          mapGet (BuildIndexes catalog).ByIATA (strToUpper code) = none) ∧
      ((∀ p ∈ catalog, p.2.ICAO = p.1) →
        ∀ k a, (k, a) ∈ catalog →
          ∃ r, GetByCode catalog k = .ok r ∧ strToUpper r.ICAO = strToUpper k) := by
  intro catalog code
  refine ⟨?_, ?_, ?_, ?_⟩
  · intro r h
    simp only [GetByCode, h]
  · intro h0 b bs h1
    simp only [GetByCode, h0, h1]
  · constructor
    · rintro ⟨e, he⟩
      cases h0 : mapGet (BuildIndexes catalog).ByICAO (strToUpper code) with
      | some r =>
        simp only [GetByCode, h0] at he
        exact Except.noConfusion he
      | none =>
        cases h1 : mapGet (BuildIndexes catalog).ByIATA (strToUpper code) with
        | none => exact ⟨rfl, rfl⟩
        | some bucket =>
          cases bucket with
          | nil =>
            exact absurd rfl
              (byIATA_buckets_ne_nil catalog _ (mapGet_mem _ _ _ h1))
          | cons b bs =>
            simp only [GetByCode, h0, h1] at he
            exact Except.noConfusion he
    · rintro ⟨h0, h1⟩
      exact ⟨"airport not found: " ++ strToUpper code, by simp only [GetByCode, h0, h1]⟩
  · intro hwf k a hmem
    obtain ⟨r, hr⟩ :=
      Option.isSome_iff_exists.mp (byICAO_lookup_total catalog k a hmem)
    obtain ⟨k', hk1, hk2⟩ := byICAO_lookup_src catalog _ r hr
    refine ⟨r, ?_, ?_⟩
    · simp only [GetByCode, hr]
    · rw [hwf (k', r) hk1, hk2]

/-- Witness for `getByCode_spec`: on a one-record catalog keyed `"KJFK"`
with alternate code `"JFK"`, the alternate lookup `"jfk"` returns the
record, the primary lookup `"kjfk"` resolves up to case, and an unknown
code yields the not-found error. -/
theorem getByCode_spec_witness :
    GetByCode [("KJFK", jfk)] "jfk" = .ok jfk ∧
    (∃ r, GetByCode [("KJFK", jfk)] "kjfk" = .ok r ∧
      strToUpper r.ICAO = strToUpper "kjfk") ∧
    (∃ e, GetByCode [("KJFK", jfk)] "zzzz" = .error e) :=
  ⟨(getByCode_spec [("KJFK", jfk)] "jfk").2.1 (by decide) jfk [] (by decide),
   (getByCode_spec [("KJFK", jfk)] "kjfk").2.2.2 (by decide) "KJFK" jfk (by decide),
   (getByCode_spec [("KJFK", jfk)] "zzzz").2.2.1.mpr ⟨by decide, by decide⟩⟩

/-! ### Nearby-pipeline lemmas -/

theorem nearbyFiltered_mem (hav : ℚ → ℚ → ℚ → ℚ → ℚ) (lat lon radius : ℚ)
    (catalog : Catalog) (r : Airport × ℚ)
    (h : r ∈ nearbyFiltered hav lat lon radius catalog) :
    r.2 ≤ radius ∧ r.2 = hav lat lon r.1.Lat r.1.Lon := by
  obtain ⟨hm, hf⟩ := List.mem_filter.mp h
  refine ⟨by simpa using hf, ?_⟩
  obtain ⟨p, _, e⟩ := List.mem_map.mp hm
  rw [← e]

theorem nearbyFiltered_proj (hav : ℚ → ℚ → ℚ → ℚ → ℚ) (lat lon radius : ℚ)
    (catalog : Catalog) :
    (nearbyFiltered hav lat lon radius catalog).map (fun r => r.1) =
      (catalog.map (fun p => p.2)).filter
        (fun a => decide (hav lat lon a.Lat a.Lon ≤ radius)) := by
  unfold nearbyFiltered
  rw [List.filter_map, List.map_map, List.filter_map]
  rfl

theorem nearbyFiltered_length (hav : ℚ → ℚ → ℚ → ℚ → ℚ) (lat lon radius : ℚ)
    (catalog : Catalog) :
    (nearbyFiltered hav lat lon radius catalog).length =
      ((catalog.map (fun p => p.2)).filter
        (fun a => decide (hav lat lon a.Lat a.Lon ≤ radius))).length := by
  rw [← nearbyFiltered_proj hav lat lon radius catalog, List.length_map]

theorem clampLimit_nonneg (limit : ℤ) (n : Nat) (h : 0 ≤ limit) :
    ¬ clampLimit limit n < 0 := by
  unfold clampLimit
  split <;> omega

/-- Totality and exact length of `GetNearby` under a non-negative limit. -/
theorem getNearby_total_aux (hav : ℚ → ℚ → ℚ → ℚ → ℚ) (lat lon radiusKm : ℚ)
    (limit : ℤ) (catalog : Catalog) (hl : 0 ≤ limit) :
    GetNearby hav lat lon radiusKm limit catalog =
      some ((sortBy (fun x y => decide (x.2 ≤ y.2))
          (nearbyFiltered hav lat lon radiusKm catalog)).take
        (clampLimit limit (nearbyFiltered hav lat lon radiusKm catalog).length).toNat
          |>.map (fun r => r.1)) ∧
      ((sortBy (fun x y => decide (x.2 ≤ y.2))
          (nearbyFiltered hav lat lon radiusKm catalog)).take
        (clampLimit limit (nearbyFiltered hav lat lon radiusKm catalog).length).toNat
          |>.map (fun r => r.1)).length =
        min limit.toNat (nearbyFiltered hav lat lon radiusKm catalog).length := by
  constructor
  · simp only [GetNearby]
    rw [if_neg (clampLimit_nonneg limit _ hl)]
  · rw [List.length_map, List.length_take,
      (perm_sortBy _ (nearbyFiltered hav lat lon radiusKm catalog)).length_eq]
    unfold clampLimit
    split <;> omega

/-- **C3.** Under `limit ≥ 0`, `GetNearby` never errors; every returned
record lies within distance ≤ `radiusKm` of the query point; the list is
sorted by non-decreasing distance; its length is `min(limit, number of
records within the radius)` (so an oversized limit returns all matches).
The distance function is an arbitrary parameter standing for the float64
haversine, so the properties hold in particular for it. -/
theorem getNearby_spec :
    ∀ (hav : ℚ → ℚ → ℚ → ℚ → ℚ) (lat lon radiusKm : ℚ) (limit : ℤ)
      (catalog : Catalog), 0 ≤ limit →
      ∃ l, GetNearby hav lat lon radiusKm limit catalog = some l ∧
        (∀ a ∈ l, hav lat lon a.Lat a.Lon ≤ radiusKm) ∧
        l.Pairwise (fun a b =>
          hav lat lon a.Lat a.Lon ≤ hav lat lon b.Lat b.Lon) ∧
        l.length = min limit.toNat
          (((catalog.map (fun p => p.2)).filter
            (fun a => decide (hav lat lon a.Lat a.Lon ≤ radiusKm))).length) ∧
        ((((catalog.map (fun p => p.2)).filter
            (fun a => decide (hav lat lon a.Lat a.Lon ≤ radiusKm))).length : ℤ)
              ≤ limit →
          l.Perm ((catalog.map (fun p => p.2)).filter
            (fun a => decide (hav lat lon a.Lat a.Lon ≤ radiusKm)))) := by
  intro hav lat lon radiusKm limit catalog hl
  obtain ⟨heq, hlen⟩ := getNearby_total_aux hav lat lon radiusKm limit catalog hl
  set F := nearbyFiltered hav lat lon radiusKm catalog with hF
  set S := sortBy (fun x y : Airport × ℚ => decide (x.2 ≤ y.2)) F with hS
  set k := (clampLimit limit F.length).toNat with hk
  refine ⟨(S.take k).map (fun r => r.1), heq, ?_, ?_, ?_, ?_⟩
  · intro a ha
    obtain ⟨r, hr, e⟩ := List.mem_map.mp ha
    have hrF : r ∈ F :=
      (perm_sortBy _ F).mem_iff.mp ((List.take_sublist _ _).mem hr)
    obtain ⟨h1, h2⟩ := nearbyFiltered_mem hav lat lon radiusKm catalog r hrF
    rw [← e, ← h2]
    exact h1
  · rw [List.pairwise_map]
    have hpw : S.Pairwise (fun x y : Airport × ℚ => decide (x.2 ≤ y.2) = true) :=
      pairwise_sortBy _ qpair_le_total qpair_le_trans F
    have hpw2 : (S.take k).Pairwise
        (fun x y : Airport × ℚ => decide (x.2 ≤ y.2) = true) :=
      List.Pairwise.sublist (List.take_sublist _ _) hpw
    refine hpw2.imp_of_mem ?_
    intro x y hx hy hxy
    have hxF : x ∈ F := (perm_sortBy _ F).mem_iff.mp ((List.take_sublist _ _).mem hx)
    have hyF : y ∈ F := (perm_sortBy _ F).mem_iff.mp ((List.take_sublist _ _).mem hy)
    rw [decide_eq_true_eq] at hxy
    rw [← (nearbyFiltered_mem hav lat lon radiusKm catalog x hxF).2,
      ← (nearbyFiltered_mem hav lat lon radiusKm catalog y hyF).2]
    exact hxy
  · rw [hlen, nearbyFiltered_length]
  · intro hbig
    have hcnt : F.length =
        ((catalog.map (fun p => p.2)).filter
          (fun a => decide (hav lat lon a.Lat a.Lon ≤ radiusKm))).length :=
      nearbyFiltered_length hav lat lon radiusKm catalog
    have hkS : S.length ≤ k := by
      rw [(perm_sortBy _ F).length_eq]
      unfold clampLimit at hk
      omega
    rw [List.take_of_length_le hkS, ← nearbyFiltered_proj hav lat lon radiusKm catalog]
    exact (perm_sortBy _ F).map (fun r => r.1)

/-- Witness for `getNearby_spec`: a constant distance function on a
one-record catalog with limit 5. -/
theorem getNearby_spec_witness :
    ∃ l, GetNearby (fun _ _ _ _ => 0) 40 (-73) 1 5 [("KJFK", jfk)] = some l ∧
      (∀ a ∈ l, (fun (_ _ _ _ : ℚ) => (0 : ℚ)) 40 (-73) a.Lat a.Lon ≤ 1) ∧
      l.Pairwise (fun a b =>
        (fun (_ _ _ _ : ℚ) => (0 : ℚ)) 40 (-73) a.Lat a.Lon ≤
          (fun (_ _ _ _ : ℚ) => (0 : ℚ)) 40 (-73) b.Lat b.Lon) ∧
      l.length = min (5 : ℤ).toNat
        (((([("KJFK", jfk)] : Catalog).map (fun p => p.2)).filter
          (fun a => decide ((fun (_ _ _ _ : ℚ) => (0 : ℚ)) 40 (-73) a.Lat a.Lon ≤ 1))).length) ∧
      (((((([("KJFK", jfk)] : Catalog).map (fun p => p.2)).filter
          (fun a => decide ((fun (_ _ _ _ : ℚ) => (0 : ℚ)) 40 (-73) a.Lat a.Lon ≤ 1))).length : ℤ))
            ≤ 5 →
        l.Perm ((([("KJFK", jfk)] : Catalog).map (fun p => p.2)).filter
          (fun a => decide ((fun (_ _ _ _ : ℚ) => (0 : ℚ)) 40 (-73) a.Lat a.Lon ≤ 1)))) :=
  getNearby_spec (fun _ _ _ _ => 0) 40 (-73) 1 5 [("KJFK", jfk)] (by decide)

/-- **C4.** The unit system passed to `GetNearbyWithDistance` affects only
the reported distance value and label: projecting away the attached
distance data yields the same record sequence for any two unit strings,
and that sequence coincides with `GetNearby` on the same arguments —
filtering and ordering are always computed in kilometers. -/
theorem getNearbyWithDistance_units_only_display :
    ∀ (hav : ℚ → ℚ → ℚ → ℚ → ℚ) (lat lon radiusKm : ℚ) (limit : ℤ)
      (u1 u2 : String) (catalog : Catalog),
      (GetNearbyWithDistance hav lat lon radiusKm limit u1 catalog).map
          (List.map (fun r => r.toAirport)) =
        (GetNearbyWithDistance hav lat lon radiusKm limit u2 catalog).map
          (List.map (fun r => r.toAirport)) ∧
      (GetNearbyWithDistance hav lat lon radiusKm limit u1 catalog).map
          (List.map (fun r => r.toAirport)) =
        GetNearby hav lat lon radiusKm limit catalog := by
  intro hav lat lon radiusKm limit u1 u2 catalog
  have key : ∀ u : String,
      (GetNearbyWithDistance hav lat lon radiusKm limit u catalog).map
          (List.map (fun r => r.toAirport)) =
        GetNearby hav lat lon radiusKm limit catalog := by
    intro u
    simp only [GetNearbyWithDistance, GetNearby]
    by_cases h : clampLimit limit (nearbyFiltered hav lat lon radiusKm catalog).length < 0
    · rw [if_pos h, if_pos h]
      rfl
    · rw [if_neg h, if_neg h]
      simp [List.map_map]
      congr 1
  exact ⟨(key u1).trans (key u2).symm, key u1⟩

/-- **C10 (amended).** Under `limit ≥ 0`, `offset ≥ 0` *and* the absence
of Go `int` overflow in `end := offset + limit` (`offset + limit ≤
MaxInt64`), the pagination of `Search` and `GetAll` is total with valid
slice bounds; `GetNearby`, which performs no such addition, is total for
every `limit ≥ 0` and its effective limit equals `min(limit, number of
records within the radius)`. (The original claim omitted the overflow
side condition: at `offset = 1`, `limit = MaxInt64` on a catalog of two
or more records, `offset + limit` wraps negative and the slice panics —
see the counterexample. Negative values remain unguarded as well.) -/
theorem pagination_totality_amended :
    ∀ (catalog : Catalog) (limit offset : ℤ), 0 ≤ limit → 0 ≤ offset →
      (offset + limit ≤ maxGoInt →
        (∀ q, ∃ l, Search catalog q limit offset = some l) ∧
        (∃ l, GetAll catalog limit offset = some l)) ∧
      (∀ (hav : ℚ → ℚ → ℚ → ℚ → ℚ) (lat lon radiusKm : ℚ),
        ∃ l, GetNearby hav lat lon radiusKm limit catalog = some l ∧
          l.length = min limit.toNat
            (nearbyFiltered hav lat lon radiusKm catalog).length) := by
  intro catalog limit offset hl ho
  refine ⟨fun hno => ⟨?_, ?_⟩, ?_⟩
  · intro q
    simp only [Search]
    split
    · exact ⟨[], rfl⟩
    · exact ⟨_, paginate_nonneg _ limit offset hl ho hno⟩
  · simp only [GetAll]
    exact ⟨_, paginate_nonneg _ limit offset hl ho hno⟩
  · intro hav lat lon radiusKm
    obtain ⟨heq, hlen⟩ := getNearby_total_aux hav lat lon radiusKm limit catalog hl
    exact ⟨_, heq, hlen⟩

/-- Witness for `pagination_totality_amended`: a concrete two-record
catalog with limit 1 and offset 1. -/
theorem pagination_totality_amended_witness :
    (∃ l, Search [("KJFK", jfk), ("KLAX", lax)] "international" 1 1 = some l) ∧
    (∃ l, GetAll [("KJFK", jfk), ("KLAX", lax)] 1 1 = some l) ∧
    (∃ l, GetNearby (fun _ _ _ _ => 0) 0 0 1 1 [("KJFK", jfk), ("KLAX", lax)] = some l ∧
      l.length = min (1 : ℤ).toNat
        (nearbyFiltered (fun _ _ _ _ => 0) 0 0 1 [("KJFK", jfk), ("KLAX", lax)]).length) := by
  obtain ⟨h12, h3⟩ :=
    pagination_totality_amended [("KJFK", jfk), ("KLAX", lax)] 1 1 (by decide) (by decide)
  obtain ⟨h1, h2⟩ := h12 (by decide)
  exact ⟨h1 "international", h2, h3 (fun _ _ _ _ => 0) 0 0 1⟩

/-- Counterexample to C10 as stated: with `limit = MaxInt64 ≥ 0` and
`offset = 1 ≥ 0` on a two-record catalog, `end := offset + limit` wraps
negative in Go `int` arithmetic, the `end > len` clamp does not fire, and
the slice bounds are invalid — `Search` panics (`none`) although the
claimed precondition `limit ≥ 0 ∧ offset ≥ 0` holds. -/
theorem pagination_totality_counterexample :
    (0 : ℤ) ≤ maxGoInt ∧ (0 : ℤ) ≤ (1 : ℤ) ∧
      Search [("AAAA", nameTieA), ("BBBB", nameTieB)] "same" maxGoInt 1 = none := by
  refine ⟨by decide, by decide, ?_⟩
  decide

/-- **C7 (amended).** For every `limit ≥ 0` and `offset ≥ 0` whose sum
does not overflow Go `int` (`offset + limit ≤ MaxInt64`), `GetAll`
returns the catalog's records sorted by primary code ascending and then
paginated by the shared policy: an `offset` at or past the record count
gives the empty page (not an error), otherwise the slice from `offset` to
`min(offset + limit, size)`. (The original claim quantified over every
`limit` and `offset`: a negative value drives the Go slice bounds out of
range — see the counterexample — and an overflowing sum wraps negative
and panics likewise, hence both side conditions.) -/
theorem getAll_spec_amended :
    ∀ (catalog : Catalog) (limit offset : ℤ), 0 ≤ limit → 0 ≤ offset →
      offset + limit ≤ maxGoInt →
      ∃ sorted : List Airport,
        sorted.Perm (catalog.map (fun p => p.2)) ∧
        sorted.Pairwise (fun a b => strLe a.ICAO b.ICAO = true) ∧
        GetAll catalog limit offset =
          some ((sorted.drop offset.toNat).take
            (min (offset + limit) (sorted.length : ℤ) - offset).toNat) ∧
        ((sorted.length : ℤ) ≤ offset → GetAll catalog limit offset = some []) := by
  intro catalog limit offset hl ho hno
  refine ⟨sortBy (fun x y => strLe x.ICAO y.ICAO) (catalog.map (fun p => p.2)),
    perm_sortBy _ _,
    pairwise_sortBy _ (fun (a b : Airport) => strLe_total a.ICAO b.ICAO)
      (fun (a b c : Airport) => strLe_trans a.ICAO b.ICAO c.ICAO) _, ?_, ?_⟩
  · simp only [GetAll]
    exact paginate_nonneg _ limit offset hl ho hno
  · intro hoff
    simp only [GetAll, paginate]
    rw [if_pos hoff]

/-- Witness for `getAll_spec_amended` at a concrete two-record catalog. -/
theorem getAll_spec_amended_witness :
    ∃ sorted : List Airport,
      sorted.Perm (([("KLAX", lax), ("KJFK", jfk)] : Catalog).map (fun p => p.2)) ∧
      sorted.Pairwise (fun a b => strLe a.ICAO b.ICAO = true) ∧
      GetAll [("KLAX", lax), ("KJFK", jfk)] 10 1 =
        some ((sorted.drop (1 : ℤ).toNat).take
          (min ((1 : ℤ) + 10) (sorted.length : ℤ) - 1).toNat) ∧
      ((sorted.length : ℤ) ≤ 1 → GetAll [("KLAX", lax), ("KJFK", jfk)] 10 1 = some []) :=
  getAll_spec_amended [("KLAX", lax), ("KJFK", jfk)] 10 1 (by decide) (by decide)
    (by decide)

/-- Counterexample to C7 as stated: with a negative limit and a non-empty
catalog the computed slice bounds are invalid and Go panics (`none` in the
embedding) instead of returning a page. -/
theorem getAll_negative_limit_counterexample :
    GetAll [("KJFK", jfk)] (-1) 0 = none := by decide

/-- **C8 (amended).** Every page returned by `Search` is sorted by display
name, ascending (non-decreasing under the Go string comparator). `Search`
is a deterministic function of the catalog enumeration order together with
the arguments, but the relative order of records with equal display names
depends on that (unspecified, randomized) enumeration order, so
call-to-call determinism holds only up to the order of equal-named
records. -/
theorem search_sorted_by_name :
    ∀ (catalog : Catalog) (q : String) (limit offset : ℤ) (l : List Airport),
      Search catalog q limit offset = some l →
        l.Pairwise (fun a b => strLe a.Name b.Name = true) := by
  intro catalog q limit offset l h
  simp only [Search] at h
  split at h
  · obtain rfl := Option.some.inj h
    simp
  · exact List.Pairwise.sublist (paginate_sublist _ limit offset l h)
      (pairwise_sortBy _ (fun (a b : Airport) => strLe_total a.Name b.Name)
        (fun (a b c : Airport) => strLe_trans a.Name b.Name c.Name) _)

/-- Witness for `search_sorted_by_name` at a concrete query. -/
theorem search_sorted_by_name_witness :
    ([jfk] : List Airport).Pairwise (fun a b => strLe a.Name b.Name = true) :=
  search_sorted_by_name [("KJFK", jfk)] "kennedy" 10 0 [jfk] (by decide)

/-- Counterexample to C8 as stated: the two catalogs are enumerations of
the same key/record set (a permutation), yet `Search` with identical
arguments returns the two equal-named records in different orders — the
tie order follows the map enumeration order, which Go randomizes per call,
so two calls need not return element-wise identical lists. -/
theorem search_determinism_counterexample :
    ([("AAAA", nameTieA), ("BBBB", nameTieB)] : Catalog).Perm
        [("BBBB", nameTieB), ("AAAA", nameTieA)] ∧
      Search [("AAAA", nameTieA), ("BBBB", nameTieB)] "same" 10 0 ≠
        Search [("BBBB", nameTieB), ("AAAA", nameTieA)] "same" 10 0 := by
  constructor
  · exact List.Perm.swap _ _ _
  · decide

/-! ### Bucket-index counting (for Stats) -/

theorem foldl_congr_fun (f g : α → β → α) (h : ∀ m p, f m p = g m p) :
    ∀ (l : List β) (m : α), l.foldl f m = l.foldl g m := by
  intro l
  induction l with
  | nil => intro m; rfl
  | cons p t ih => intro m; rw [List.foldl_cons, List.foldl_cons, h, ih]

theorem nodupKeys_appendBucket (m : List (String × List β)) (k : String) (v : β)
    (h : (m.map Prod.fst).Nodup) : ((appendBucket m k v).map Prod.fst).Nodup := by
  rw [keys_appendBucket]
  by_cases hk : k ∈ m.map Prod.fst
  · rw [if_pos hk]; exact h
  · rw [if_neg hk]
    refine List.nodup_append.mpr ⟨h, List.nodup_singleton k, ?_⟩
    intro a ha hb
    rw [List.mem_singleton] at hb
    exact hk (hb ▸ ha)

theorem toFinset_keys_appendBucket (m : List (String × List β)) (k : String) (v : β) :
    ((appendBucket m k v).map Prod.fst).toFinset =
      insert k (m.map Prod.fst).toFinset := by
  rw [keys_appendBucket]
  by_cases hk : k ∈ m.map Prod.fst
  · rw [if_pos hk]
    exact (Finset.insert_eq_self.mpr (List.mem_toFinset.mpr hk)).symm
  · rw [if_neg hk, List.toFinset_append]
    simp [Finset.union_comm, Finset.insert_eq]

theorem buckets_keys_aux (keyOf : String × Airport → Option String) :
    ∀ (c : Catalog) (m : List (String × List Airport)),
      (m.map Prod.fst).Nodup →
      (((c.foldl (bucketStep keyOf) m).map Prod.fst).Nodup ∧
        ((c.foldl (bucketStep keyOf) m).map Prod.fst).toFinset =
          (m.map Prod.fst).toFinset ∪ (c.filterMap keyOf).toFinset) := by
  intro c
  induction c with
  | nil => intro m h; exact ⟨h, by simp⟩
  | cons p t ih =>
    intro m h
    rw [List.foldl_cons]
    cases hk : keyOf p with
    | none =>
      have hstep : bucketStep keyOf m p = m := by simp [bucketStep, hk]
      rw [hstep]
      obtain ⟨h1, h2⟩ := ih m h
      refine ⟨h1, ?_⟩
      rw [h2, List.filterMap_cons_none hk]
    | some k =>
      have hstep : bucketStep keyOf m p = appendBucket m k p.2 := by
        simp [bucketStep, hk]
      rw [hstep]
      obtain ⟨h1, h2⟩ := ih (appendBucket m k p.2) (nodupKeys_appendBucket m k p.2 h)
      refine ⟨h1, ?_⟩
      rw [h2, toFinset_keys_appendBucket, List.filterMap_cons_some hk,
        List.toFinset_cons, Finset.insert_union, Finset.union_insert]

theorem buckets_length (keyOf : String × Airport → Option String) (c : Catalog) :
    (c.foldl (bucketStep keyOf) []).length = distinctCount (c.filterMap keyOf) := by
  obtain ⟨h1, h2⟩ := buckets_keys_aux keyOf c [] (by simp)
  have hl : (c.foldl (bucketStep keyOf) []).length =
      ((c.foldl (bucketStep keyOf) []).map Prod.fst).length :=
    (List.length_map _ _).symm
  rw [hl, ← List.toFinset_card_of_nodup h1, h2]
  simp only [List.map_nil, List.toFinset_nil, Finset.empty_union]
  rw [List.card_toFinset]
  rfl

theorem byCountry_def (catalog : Catalog) :
    (BuildIndexes catalog).ByCountry =
      catalog.foldl
        (fun m p => if p.2.Country = "" then m
          else appendBucket m (strToUpper p.2.Country) p.2) [] := rfl

theorem byCity_def (catalog : Catalog) :
    (BuildIndexes catalog).ByCity =
      catalog.foldl
        (fun m p => if p.2.City = "" then m
          else appendBucket m (strToLower p.2.City) p.2) [] := rfl

theorem byCountry_as_buckets (catalog : Catalog) :
    (BuildIndexes catalog).ByCountry =
      catalog.foldl (bucketStep (fun p =>
        if p.2.Country = "" then none else some (strToUpper p.2.Country))) [] := by
  rw [byCountry_def]
  exact foldl_congr_fun _ _
    (fun m p => by by_cases hc : p.2.Country = "" <;> simp [bucketStep, hc])
    catalog []

theorem byCity_as_buckets (catalog : Catalog) :
    (BuildIndexes catalog).ByCity =
      catalog.foldl (bucketStep (fun p =>
        if p.2.City = "" then none else some (strToLower p.2.City))) [] := by
  rw [byCity_def]
  exact foldl_congr_fun _ _
    (fun m p => by by_cases hc : p.2.City = "" <;> simp [bucketStep, hc])
    catalog []

theorem byIATA_as_buckets (catalog : Catalog) :
    (BuildIndexes catalog).ByIATA =
      catalog.foldl (bucketStep (fun p =>
        if p.2.IATA = "" then none else some (strToUpper p.2.IATA))) [] := by
  rw [byIATA_def]
  exact foldl_congr_fun _ _
    (fun m p => by by_cases hc : p.2.IATA = "" <;> simp [bucketStep, hc])
    catalog []

/-- **C5 (amended).** `Stats` returns: the total number of records; the
number of distinct (non-empty, upper-cased) country codes; the number of
distinct (non-empty, lower-cased) localities; and — amending the claim —
the number of *distinct* (non-empty, upper-cased) alternate codes, not the
count of records possessing a non-empty alternate code (two records
sharing one alternate code contribute a single bucket; see the
counterexample). -/
theorem stats_spec_amended :
    ∀ catalog : Catalog,
      Stats catalog =
        { total_airports := catalog.length
          countries := distinctCount (catalog.filterMap
            (fun p => if p.2.Country = "" then none else some (strToUpper p.2.Country)))
          cities := distinctCount (catalog.filterMap
            (fun p => if p.2.City = "" then none else some (strToLower p.2.City)))
          with_iata := distinctCount (catalog.filterMap
            (fun p => if p.2.IATA = "" then none else some (strToUpper p.2.IATA))) } := by
  intro catalog
  simp only [Stats]
  congr 1
  · rw [byCountry_as_buckets]
    exact buckets_length _ catalog
  · rw [byCity_as_buckets]
    exact buckets_length _ catalog
  · rw [byIATA_as_buckets]
    exact buckets_length _ catalog

/-- Counterexample to C5 as stated: two records share the alternate code
`"SHR"`, so `with_iata` reports 1 (distinct codes), not 2 (records with a
non-empty alternate code). -/
theorem stats_with_iata_counterexample :
    (Stats [("AAAA", iataShareA), ("BBBB", iataShareB)]).with_iata ≠
      (([("AAAA", iataShareA), ("BBBB", iataShareB)] : Catalog).filter
        (fun p => decide (p.2.IATA ≠ ""))).length := by decide
